import Mathlib

/-!
Shallow embedding of `src/table.rs` of the `click` repository: the cell
specification type (`CellSpec`), regex-option extraction (`get_regex`), row
filtering (`filter`) and table building (`add_to_table`), together with
theorems checking the natural-language specification against this code.

External crates are modelled at the interface this file uses:
* `regex::Regex` is modelled by its matcher `is_match : String → Bool`, and
  fallible compilation (`Regex::new`) is abstracted as a `compile` parameter;
* `prettytable`'s `Cell` records the text passed to `Cell::new` and the
  style string passed to `style_spec` (the only two constructors used here);
  `Row` and `Table` are the evident wrappers, with `add_row` appending;
* `clap::ArgMatches` is modelled by its `value_of` lookup.
-/

namespace Click

/-- `prettytable::format::Alignment`, as used for the `align` field. -/
inductive Alignment where
  | left
  | center
  | right
deriving DecidableEq, Repr

/-- A compiled regex, modelled by its matching function: `is_match s` is
true iff the pattern finds at least one match anywhere inside `s`
(the semantics of `regex::Regex::is_match`). -/
structure Regex where
  is_match : String → Bool

/-- A `prettytable` cell, at the interface `table.rs` uses: the text given
to `Cell::new` and the optional style string given to `style_spec`. -/
structure Cell where
  text : String
  styleSpec : Option String
deriving DecidableEq, Repr

/-- `Cell::new`: a cell with the given text and no style. -/
def Cell.new (t : String) : Cell :=
  { text := t, styleSpec := none }

/-- `Cell::style_spec`: attach a style string to a cell. -/
def Cell.style_spec (c : Cell) (s : String) : Cell :=
  { c with styleSpec := some s }

/-- A `prettytable` row: an ordered list of cells. -/
structure Row where
  cells : List Cell
deriving DecidableEq, Repr

/-- `Row::new`. -/
def Row.new (cs : List Cell) : Row :=
  { cells := cs }

/-- A `prettytable` table, at the interface `table.rs` uses: its rows. -/
structure Table where
  rows : List Row
deriving DecidableEq, Repr

/-- `Table::add_row`: append one row. -/
def Table.add_row (t : Table) (r : Row) : Table :=
  { rows := t.rows ++ [r] }

/-- `enum CellSpecTxt<'a> { Index, Str(&'a str), String(String) }`.
The Rust borrowed/owned distinction collapses to `String` in Lean but both
constructors are kept to mirror the source. -/
inductive CellSpecTxt where
  | index
  | str (s : String)
  | string (s : String)
deriving DecidableEq, Repr

/-- `struct CellSpec<'a> { txt, style, align }` from `table.rs`. -/
structure CellSpec where
  txt : CellSpecTxt
  style : Option String
  align : Option Alignment
deriving DecidableEq, Repr

/-- `CellSpec::new`. -/
def CellSpec.new (txt : String) : CellSpec :=
  { txt := CellSpecTxt.str txt, style := none, align := none }

/-- `CellSpec::new_owned`. -/
def CellSpec.new_owned (txt : String) : CellSpec :=
  { txt := CellSpecTxt.string txt, style := none, align := none }

/-- `CellSpec::new_index`. -/
def CellSpec.new_index : CellSpec :=
  { txt := CellSpecTxt.index, style := none, align := none }

/-- `CellSpec::with_style`. -/
def CellSpec.with_style (txt style : String) : CellSpec :=
  { txt := CellSpecTxt.str txt, style := some style, align := none }

/-- `CellSpec::with_style_owned`. -/
def CellSpec.with_style_owned (txt : String) (style : String) : CellSpec :=
  { txt := CellSpecTxt.string txt, style := some style, align := none }

/-- `CellSpec::to_cell(&self, index: usize) -> Cell`: render the text
(`Index` as the decimal row position, text variants verbatim), then apply
the style when present. The `align` field is not consulted. -/
def CellSpec.to_cell (spec : CellSpec) (index : Nat) : Cell :=
  let cell :=
    match spec.txt with
    | CellSpecTxt.index => Cell.new (toString index)
    | CellSpecTxt.str s => Cell.new s
    | CellSpecTxt.string s => Cell.new s
  match spec.style with
  | some style => cell.style_spec style
  | none => cell

/-- `CellSpec::matches(&self, regex: &Regex) -> bool`. -/
def CellSpec.matches (spec : CellSpec) (regex : Regex) : Bool :=
  match spec.txt with
  | CellSpecTxt.index => false
  | CellSpecTxt.str s => regex.is_match s
  | CellSpecTxt.string s => regex.is_match s

/-- `clap::ArgMatches`, modelled by its `value_of` lookup. -/
structure ArgMatches where
  value_of : String → Option String

/-- `get_regex(matches) -> Result<Option<Regex>, String>`. Compilation by
the external `regex` crate (`Regex::new`) is abstracted as the `compile`
parameter; `compile p = none` models a pattern that fails to compile. -/
def get_regex (compile : String → Option Regex) (args : ArgMatches) :
    Except String (Option Regex) :=
  match args.value_of "regex" with
  | some pattern =>
    match compile pattern with
    | some regex => Except.ok (some regex)
    | none => Except.error ("Invalid regex: " ++ pattern)
  | none => Except.ok none

/-- `filter(things, regex)`: keep exactly the rows where the loop over the
row's cells sets `has_match`; the loop visits every cell but only updates
`has_match` while it is still false, exactly as in the source. -/
def filter {T : Type} (things : List (T × List CellSpec)) (regex : Regex) :
    List (T × List CellSpec) :=
  things.filterMap (fun thing =>
    let has_match := thing.2.foldl
      (fun has_match cell_spec =>
        if !has_match then cell_spec.matches regex else has_match) false
    if has_match then some thing else none)

/-- `add_to_table(table, specs)`: for each `(index, t_spec)` of
`specs.iter().enumerate()`, render the row's cells at that index and append
the row to the table. -/
def add_to_table {T : Type} (table : Table) (specs : List (T × List CellSpec)) :
    Table :=
  specs.enum.foldl
    (fun tbl p => tbl.add_row (Row.new (p.2.2.map (fun spec => spec.to_cell p.1))))
    table

/-- Modelled from the spec: the filter *stage* of the pipeline takes the
optional compiled pattern produced by `get_regex`; the dispatch (callers
skip `filter` entirely when the pattern is absent) lives in the callers of
`filter`, which are outside `src/`. "If `pattern` is absent, this stage is
a no-op (identity on the row sequence)". -/
def filterStage {T : Type} (things : List (T × List CellSpec)) :
    Option Regex → List (T × List CellSpec)
  | none => things
  | some regex => filter things regex

/-! ### Helper lemmas -/

/-- The source's cell loop computes the boolean OR of `matches` over the
row's cells: threading the accumulator through `foldl` equals `b || any`. -/
theorem foldl_has_match (regex : Regex) (cells : List CellSpec) (b : Bool) :
    cells.foldl
      (fun has_match cell_spec =>
        if !has_match then cell_spec.matches regex else has_match) b
      = (b || cells.any (fun c => c.matches regex)) := by
  induction cells generalizing b with
  | nil => simp
  | cons c cs ih =>
    cases b with
    | false =>
      have hstep : (if !false then c.matches regex else false) = c.matches regex := rfl
      rw [List.foldl_cons, hstep, ih]
      simp
    | true =>
      have hstep : (if !true then c.matches regex else true) = true := rfl
      rw [List.foldl_cons, hstep, ih]
      simp

/-- `filterMap` with a keep-or-drop function is `List.filter`. -/
theorem filterMap_if_eq_filter {α : Type} (p : α → Bool) (l : List α) :
    l.filterMap (fun a => if p a then some a else none) = l.filter p := by
  induction l with
  | nil => rfl
  | cons a l ih =>
    cases h : p a with
    | true => simp [List.filterMap_cons, List.filter_cons, h, ih]
    | false => simp [List.filterMap_cons, List.filter_cons, h, ih]

/-- `filter` is the stable `List.filter` by the row-level predicate
"some cell matches". -/
theorem filter_eq_filter_any {T : Type} (things : List (T × List CellSpec))
    (regex : Regex) :
    filter things regex
      = things.filter (fun thing => thing.2.any (fun c => c.matches regex)) := by
  have hf : (fun (thing : T × List CellSpec) =>
        let has_match := thing.2.foldl
          (fun has_match cell_spec =>
            if !has_match then cell_spec.matches regex else has_match) false
        if has_match then some thing else none)
      = (fun (thing : T × List CellSpec) =>
          if thing.2.any (fun c => c.matches regex) then some thing else none) := by
    funext thing
    simp only [foldl_has_match, Bool.false_or]
  rw [filter, hf, filterMap_if_eq_filter]

/-- The rows of `add_to_table`: the original rows, then one rendered row
per spec, each rendered at its 0-based position in `specs`. -/
theorem add_to_table_rows {T : Type} (table : Table)
    (specs : List (T × List CellSpec)) :
    (add_to_table table specs).rows
      = table.rows
        ++ specs.enum.map (fun p => Row.new (p.2.2.map (fun spec => spec.to_cell p.1))) := by
  unfold add_to_table
  generalize specs.enum = l
  induction l generalizing table with
  | nil => simp
  | cons p ps ih =>
    rw [List.foldl_cons, ih]
    simp [Table.add_row]

/-! ### Claims -/

/-- C1: for every input row sequence and every compiled regex, `filter`
returns exactly the rows for which at least one cell matches the regex, each
kept row unchanged (payload and cells identical) and in the input's relative
order: `filter` equals the stable `List.filter` by the row predicate "some
cell of the row matches". -/
theorem C1_filter_keeps_exactly_matching_rows {T : Type}
    (things : List (T × List CellSpec)) (regex : Regex) :
    filter things regex
      = things.filter (fun thing => thing.2.any (fun c => c.matches regex)) :=
  filter_eq_filter_any things regex

/-- C2: `get_regex` returns `ok none` when the "regex" option is absent,
`ok (some regex)` when it is present and compiles, and the error message
"Invalid regex: " followed by the offending pattern verbatim when it is
present but does not compile. -/
theorem C2_get_regex_cases (compile : String → Option Regex) (args : ArgMatches) :
    (args.value_of "regex" = none → get_regex compile args = Except.ok none)
    ∧ (∀ p r, args.value_of "regex" = some p → compile p = some r →
        get_regex compile args = Except.ok (some r))
    ∧ (∀ p, args.value_of "regex" = some p → compile p = none →
        get_regex compile args = Except.error ("Invalid regex: " ++ p)) := by
  refine ⟨?_, ?_, ?_⟩
  · intro h
    simp [get_regex, h]
  · intro p r hp hc
    simp [get_regex, hp, hc]
  · intro p hp hc
    simp [get_regex, hp, hc]

theorem C2_witness :
    get_regex (fun _ => some (Regex.mk (fun _ => true))) (ArgMatches.mk (fun _ => none))
      = Except.ok none
    ∧ get_regex (fun _ => some (Regex.mk (fun _ => true)))
        (ArgMatches.mk (fun _ => some "red"))
      = Except.ok (some (Regex.mk (fun _ => true)))
    ∧ get_regex (fun _ => none) (ArgMatches.mk (fun _ => some "["))
      = Except.error ("Invalid regex: " ++ "[") :=
  ⟨(C2_get_regex_cases (fun _ => some (Regex.mk (fun _ => true)))
      (ArgMatches.mk (fun _ => none))).1 rfl,
   (C2_get_regex_cases (fun _ => some (Regex.mk (fun _ => true)))
      (ArgMatches.mk (fun _ => some "red"))).2.1 "red" (Regex.mk (fun _ => true)) rfl rfl,
   (C2_get_regex_cases (fun _ => none)
      (ArgMatches.mk (fun _ => some "["))).2.2 "[" rfl rfl⟩

/-- C3: `to_cell` is total (a Lean function) and renders an `Index` cell as
the decimal string of the position, a `Str`/`String` cell as the stored text
verbatim, and carries the style over to the rendered cell exactly when one
is present. -/
theorem C3_to_cell_renders (spec : CellSpec) (index : Nat) :
    ((spec.to_cell index).text
        = match spec.txt with
          | CellSpecTxt.index => toString index
          | CellSpecTxt.str s => s
          | CellSpecTxt.string s => s)
    ∧ (spec.to_cell index).styleSpec = spec.style := by
  obtain ⟨txt, style, align⟩ := spec
  cases txt <;> cases style <;> exact ⟨rfl, rfl⟩

/-- C4: `matches` is false on `Index` content, and true exactly when the
content stores a text on which the regex finds at least one match. -/
theorem C4_matches_characterization (spec : CellSpec) (regex : Regex) :
    spec.matches regex = true
      ↔ ∃ s, (spec.txt = CellSpecTxt.str s ∨ spec.txt = CellSpecTxt.string s)
          ∧ regex.is_match s = true := by
  obtain ⟨txt, style, align⟩ := spec
  cases txt with
  | index => simp [CellSpec.matches]
  | str s => simp [CellSpec.matches]
  | string s => simp [CellSpec.matches]

/-- C5 counterexample: a `CellSpec` carrying an alignment renders to exactly
the same cell as the same spec with no alignment; `to_cell` never reads the
`align` field, so no alignment is attached to the rendered cell. -/
theorem C5_cex_align_not_attached :
    CellSpec.to_cell { txt := CellSpecTxt.str "x", style := none, align := some Alignment.right } 0
      = CellSpec.to_cell { txt := CellSpecTxt.str "x", style := none, align := none } 0 := rfl

/-- C5 amended: `to_cell` ignores the `align` field entirely; the rendered
cell is determined by the content, the style and the position alone, whether
an alignment is present or not. -/
theorem C5_to_cell_ignores_align (txt : CellSpecTxt) (style : Option String)
    (a a' : Option Alignment) (index : Nat) :
    CellSpec.to_cell { txt := txt, style := style, align := a } index
      = CellSpec.to_cell { txt := txt, style := style, align := a' } index := rfl

/-- C6: the row at position `i` of the spec list handed to `add_to_table` is
rendered with position `i` counted from 0 (and appended after the table's
existing rows), so `Index` cells show dense zero-based indices over the
already-filtered sequence. -/
theorem C6_positional_index_dense {T : Type} (table : Table)
    (specs : List (T × List CellSpec)) (i : Nat) (hi : i < specs.length) :
    (add_to_table table specs).rows[table.rows.length + i]?
      = some (Row.new (specs[i].2.map (fun spec => spec.to_cell i))) := by
  rw [add_to_table_rows, List.getElem?_append_right (Nat.le_add_right _ _)]
  rw [Nat.add_sub_cancel_left, List.getElem?_map, List.getElem?_enum]
  rw [List.getElem?_eq_getElem hi]
  rfl

theorem C6_witness :
    (add_to_table (Table.mk [])
        [((10 : Nat), [CellSpec.new_index]), ((20 : Nat), [CellSpec.new_index])]).rows[
          (Table.mk ([] : List Row)).rows.length + 1]?
      = some (Row.new ([CellSpec.new_index].map (fun spec => spec.to_cell 1))) :=
  C6_positional_index_dense (Table.mk [])
    [((10 : Nat), [CellSpec.new_index]), ((20 : Nat), [CellSpec.new_index])] 1 (by decide)

/-- C7: every row kept by `filter` has at least one cell, and at least one
cell that is not an `Index` cell; hence a row with no cells, or whose cells
are all `Index` cells, is always dropped whatever the regex. -/
theorem C7_all_index_rows_dropped {T : Type} (things : List (T × List CellSpec))
    (regex : Regex) (p : T × List CellSpec)
    (hp : p.2 = [] ∨ ∀ c ∈ p.2, c.txt = CellSpecTxt.index) :
    p ∉ filter things regex := by
  intro hmem
  rw [filter_eq_filter_any] at hmem
  have hpred := List.of_mem_filter hmem
  rw [List.any_eq_true] at hpred
  obtain ⟨c, hc, hcm⟩ := hpred
  rcases hp with h | h
  · rw [h] at hc
    exact absurd hc (List.not_mem_nil c)
  · have hidx := h c hc
    simp [CellSpec.matches, hidx] at hcm

theorem C7_witness :
    ((0 : Nat), [CellSpec.new_index])
      ∉ filter [((0 : Nat), [CellSpec.new_index])] (Regex.mk (fun _ => true)) :=
  C7_all_index_rows_dropped [((0 : Nat), [CellSpec.new_index])]
    (Regex.mk (fun _ => true)) ((0 : Nat), [CellSpec.new_index]) (Or.inr (by decide))

/-- C8: with the pattern absent, the filter stage is the identity on the row
sequence, for any row sequence including the empty one. -/
theorem C8_absent_pattern_identity {T : Type} (things : List (T × List CellSpec)) :
    filterStage things none = things := rfl

/-- C9: `matches` never depends on styling metadata: two `CellSpec`s with the
same content but arbitrary style and alignment fields match identically
against every regex. -/
theorem C9_matches_ignores_style_align (txt : CellSpecTxt)
    (style style' : Option String) (align align' : Option Alignment) (regex : Regex) :
    CellSpec.matches { txt := txt, style := style, align := align } regex
      = CellSpec.matches { txt := txt, style := style', align := align' } regex := rfl

/-- C10: `add_to_table` only appends: the original rows are unchanged and in
their original positions (the prefix of the result), followed by exactly one
rendered row per spec, in the spec list's order; the spec list and payloads
are untouched (the function neither consumes nor rebuilds them). -/
theorem C10_add_to_table_append_only {T : Type} (table : Table)
    (specs : List (T × List CellSpec)) :
    (add_to_table table specs).rows.take table.rows.length = table.rows
    ∧ (add_to_table table specs).rows.drop table.rows.length
        = specs.enum.map (fun p => Row.new (p.2.2.map (fun spec => spec.to_cell p.1)))
    ∧ (add_to_table table specs).rows.length = table.rows.length + specs.length := by
  simp only [add_to_table_rows]
  refine ⟨List.take_left _ _, List.drop_left _ _, ?_⟩
  simp [List.enum_length]

end Click
